import Mathlib

/-
  Verification of the cloud-backed database synchronization engine of the
  expense_control repository.

  Shallow embedding of:
    - core/storage_dropbox.py : probe_remote, pull_if_newer, push_with_rev,
      _make_backup / _rotate_backups / _make_conflicted_copy
    - core/db.py : transaction, _get_user_version / _set_user_version, _migrate

  External effects (the Dropbox client, the filesystem, SQLite) are made
  explicit: each operation is a pure function from the pre-state plus an
  environment record describing the outcome of each external call, to a
  result, a post-state and a trace of the externally visible actions.
-/

set_option maxRecDepth 8000

/- Definitions: shallow embedding of the data model and operations. -/

/-- Metadata of the remote file, mirroring the `RemoteFileInfo` dataclass of
`storage_dropbox.py` (timestamps modelled as naturals). -/
structure RemoteFileInfo where
  path : String
  rev : String
  content_hash : String
  size : Nat
  client_modified : Nat
  server_modified : Nat
deriving DecidableEq, Repr

/-- The possible outcomes of the external call
`dbx.files_get_metadata(path)` (plus the authentication check performed by
`get_dbx`), as discriminated by the except-clauses of `probe_remote`:
a `FileMetadata` result, a non-file result (e.g. `FolderMetadata`), an
`ApiError` whose structured error has `is_path()` true (path lookup failed,
the file does not exist), an `ApiError` of any other shape, an `ApiError`
whose introspection itself raises, and an authentication failure raised
from `get_dbx`. -/
inductive DbxMetaResponse where
  | fileMeta (info : RemoteFileInfo)
  | nonFileMeta
  | apiErrPath
  | apiErrOther
  | apiErrOpaque
  | authErr
deriving DecidableEq, Repr

/-- The error outcome of `probe_remote`: the `RuntimeError` raised for
transport or authentication failures (`RemoteUnavailable`). -/
inductive ProbeErr where
  | remoteUnavailable
deriving DecidableEq, Repr

/-- Result of `probe_remote`: either an error, or `none` (file not found /
not a plain file) or the remote metadata. -/
inductive ProbeRes where
  | ok (info : Option RemoteFileInfo)
  | err (e : ProbeErr)
deriving DecidableEq, Repr

/-- Shallow embedding of `storage_dropbox.probe_remote`, branch by branch:
a `FileMetadata` answer returns the metadata; an `ApiError` with
`error.is_path()` true returns `None`; any other `ApiError` (including one
whose introspection raises) re-raises as `RuntimeError`; a non-file
metadata object returns `None` with a warning; an authentication failure
propagates as `RuntimeError`. -/
def probe_remote : DbxMetaResponse → ProbeRes
  | .fileMeta info => .ok (some info)
  | .nonFileMeta => .ok none
  | .apiErrPath => .ok none
  | .apiErrOther => .err .remoteUnavailable
  | .apiErrOpaque => .err .remoteUnavailable
  | .authErr => .err .remoteUnavailable

/-- A SQLite connection over transactional data `α`: the data plus whether a
transaction is currently open. -/
structure Conn (α : Type) where
  data : α
  inTx : Bool
deriving DecidableEq, Repr

/-- Error outcome of the `transaction` context manager: the `ValueError`
raised for an invalid begin mode, or an exception `e` raised by the wrapped
block and propagated after rollback. -/
inductive TxErr (ε : Type) where
  | valueError
  | raised (e : ε)
deriving DecidableEq, Repr

/-- Python `str.strip()`: remove leading and trailing whitespace. -/
def pyStrip (s : String) : String :=
  ⟨((s.data.dropWhile Char.isWhitespace).reverse.dropWhile Char.isWhitespace).reverse⟩

/-- Python `str.upper()` (restricted to the alphabet that matters here). -/
def pyUpper (s : String) : String :=
  ⟨s.data.map Char.toUpper⟩

/-- The begin-mode validity check of `db.transaction`:
`begin_mode.strip().upper() in {"DEFERRED","IMMEDIATE","EXCLUSIVE"}`. -/
def validMode (beginMode : String) : Bool :=
  let mode := pyUpper (pyStrip beginMode)
  mode = "DEFERRED" || mode = "IMMEDIATE" || mode = "EXCLUSIVE"

/-- Shallow embedding of the `db.transaction` context manager.  The wrapped
block is a function from the connection (with the transaction open) to the
mutated connection together with `none` (normal completion) or `some e`
(the block raised `e`).  An invalid mode raises `ValueError` before any
statement is executed; on normal completion the transaction is committed;
on an exception the connection is rolled back to its state at `BEGIN` and
the exception propagates unchanged. -/
def transaction (beginMode : String) (conn : Conn α)
    (body : Conn α → Conn α × Option ε) : Conn α × Option (TxErr ε) :=
  if validMode beginMode then
    match body { conn with inTx := true } with
    | (c2, none) => ({ c2 with inTx := false }, none)
    | (_, some e) => ({ conn with inTx := false }, some (.raised e))
  else
    (conn, some .valueError)

/-- The transactional content of the database file as seen by the migration
engine: the `PRAGMA user_version` counter persisted inside the file, plus
the rest of the database (schema and rows), abstracted as `σ`.  Both are
under transaction control in SQLite. -/
structure MigData (σ : Type) where
  userVersion : Nat
  db : σ
deriving DecidableEq, Repr

/-- A registered migration function (`MIGRATIONS[v]`): it transforms the
database state, or raises (`none`). -/
def MigFn (σ : Type) : Type := MigData σ → Option (MigData σ)

/-- The fatal errors of `db._migrate`, one per `raise RuntimeError` site,
plus the propagated failure of a migration step. -/
inductive MigErr where
  | futureSchema (current target : Nat)
  | noMigration (v : Nat)
  | stepFailed (v : Nat)
deriving DecidableEq, Repr

/-- The body of one migration step, as run inside the `with transaction`
block of `db._migrate`: run the migration function `mig(conn)`, then
`_set_user_version(conn, nxt)`.  A raise inside the migration function
surfaces as `some ()`. -/
def migStepBody (m : MigFn σ) (v : Nat) (c : Conn (MigData σ)) :
    Conn (MigData σ) × Option Unit :=
  match m c.data with
  | none => (c, some ())
  | some d => ({ c with data := { d with userVersion := v } }, none)

/-- The `for nxt in range(current + 1, target_version + 1)` loop of
`db._migrate`: look up the registered migration (missing is fatal), run it
together with the version bump inside `transaction(conn, "DEFERRED")`, and
abort the whole sequence on the first failure, keeping the rolled-back
connection. -/
def migrateSteps (migs : Nat → Option (MigFn σ)) :
    List Nat → Conn (MigData σ) → Conn (MigData σ) × Option MigErr
  | [], conn => (conn, none)
  | v :: rest, conn =>
    match migs v with
    | none => (conn, some (.noMigration v))
    | some m =>
      match transaction ("DEFERRED") conn (migStepBody m v) with
      | (c2, none) => migrateSteps migs rest c2
      | (c2, some _) => (c2, some (.stepFailed v))

/-- Shallow embedding of `db._migrate(conn, target_version)`: refuse a
future schema (`current > target`), no-op when already at the target, else
run the migration loop over `current+1 .. target`. -/
def _migrate (migs : Nat → Option (MigFn σ)) (target : Nat)
    (conn : Conn (MigData σ)) : Conn (MigData σ) × Option MigErr :=
  if target < conn.data.userVersion then
    (conn, some (.futureSchema conn.data.userVersion target))
  else if conn.data.userVersion = target then
    (conn, none)
  else
    migrateSteps migs
      (List.range' (conn.data.userVersion + 1) (target - conn.data.userVersion)) conn

/-- The target schema version of the app (`db.SCHEMA_VERSION`). -/
def SCHEMA_VERSION : Nat := 1

/-- Reference sequential application of the registered migrations for a
list of versions, each followed by its version bump — the state the spec
says a successful run must reach. `none` when a migration is unregistered
or raises. -/
def applySteps (migs : Nat → Option (MigFn σ)) :
    List Nat → MigData σ → Option (MigData σ)
  | [], d => some d
  | v :: rest, d =>
    match migs v with
    | none => none
    | some m =>
      match m d with
      | none => none
      | some d2 => applySteps migs rest { d2 with userVersion := v }

/-- A concrete migration registry for the witnesses: only version 1 is
registered, mirroring `MIGRATIONS[1] = _migration_1_create_baseline`. -/
def migsW : Nat → Option (MigFn Nat) :=
  fun v => if v = 1 then some (fun d => some (MigData.mk d.userVersion (d.db + 5))) else none

/-- The remote object as held by the blob store: its current revision
token, content hash, and bytes. -/
structure RemoteObj where
  rev : String
  contentHash : String
  content : List Nat
deriving DecidableEq, Repr

/-- The state a sync operation acts on: the remote object (if any), the
local database file content (if the file exists), and the two sidecar
values as read by `_read_sidecar` (`none` for a missing, empty or
unreadable sidecar file). -/
structure SyncState where
  remote : Option RemoteObj
  localFile : Option (List Nat)
  sidecarRev : Option String
  sidecarHash : Option String
deriving DecidableEq, Repr

/-- Externally visible actions a sync operation performs, in order: a
`files_download_to_file` call, a pre-push backup (`_make_backup`), a
conflicted copy (`_make_conflicted_copy`), a `files_upload` with
`WriteMode.add`, or a `files_upload` with `WriteMode.update(rev)`. -/
inductive SyncEv where
  | download
  | backup
  | conflictedCopy (bytes : List Nat)
  | uploadAdd (bytes : List Nat)
  | uploadUpd (expectedRev : String) (bytes : List Nat)
deriving DecidableEq, Repr

/-- Errors a sync operation raises: `RuntimeError` for transport failures
(`RemoteUnavailable`) and `FileNotFoundError` for a missing local file. -/
inductive SyncErr where
  | remoteUnavailable
  | localFileMissing
deriving DecidableEq, Repr

/-- Returned value of a sync operation: the boolean, or a raised error. -/
inductive SyncRes where
  | ok (b : Bool)
  | err (e : SyncErr)
deriving DecidableEq, Repr

/-- Result of a sync operation: the return value or raised error, the
post-state, and the trace of external actions performed. -/
structure SyncOut where
  res : SyncRes
  state : SyncState
  evs : List SyncEv
deriving DecidableEq, Repr

/-- Outcome of one `files_upload` call: the store accepts and reports the
new revision and content hash of the object, rejects with a rev-conflict
path error, or fails with any other `ApiError`. -/
inductive UpRes where
  | accepted (rev contentHash : String)
  | conflictErr
  | otherErr
deriving DecidableEq, Repr

/-- Environment of one `pull_if_newer` call: whether the metadata probe
reaches the service, whether `files_download_to_file` succeeds, and whether
each of the two `_write_sidecar` calls succeeds (their `OSError` is caught
and logged). -/
structure PullEnv where
  probeOk : Bool
  downloadOk : Bool
  revWriteOk : Bool
  hashWriteOk : Bool
deriving DecidableEq, Repr

/-- Environment of one `push_with_rev` call: whether the probe reaches the
service, whether `_make_backup` / `_make_conflicted_copy` succeed (their
exceptions are caught and logged), the store's answer to the
`WriteMode.add` upload and to the `WriteMode.update(rev)` upload, and
whether each `_write_sidecar` call succeeds. -/
structure PushEnv where
  probeOk : Bool
  backupOk : Bool
  conflictedOk : Bool
  addRes : UpRes
  updRes : UpRes
  revWriteOk : Bool
  hashWriteOk : Bool
deriving DecidableEq, Repr

/-- The two `_write_sidecar` calls performed after a successful download or
upload; a failed write leaves the old sidecar value (the failure is caught
and only logged). -/
def recordSidecars (revOk hashOk : Bool) (rev hash : String)
    (st : SyncState) : SyncState :=
  let st1 := if revOk then { st with sidecarRev := some rev } else st
  if hashOk then { st1 with sidecarHash := some hash } else st1

/-- The up-to-date test of `pull_if_newer`: local file exists and both
sidecar values equal the remote metadata. -/
def upToDate (st : SyncState) (r : RemoteObj) : Bool :=
  st.localFile.isSome && decide (st.sidecarRev = some r.rev) &&
    decide (st.sidecarHash = some r.contentHash)

/-- Shallow embedding of `storage_dropbox.pull_if_newer`: probe the remote
(a transport failure raises); no remote file means nothing to pull
(`False`); an up-to-date local copy means no download (`False`); otherwise
download the remote object over the local file — a failed download raises
`RuntimeError` and leaves local file and sidecars as they were — and on
success persist the remote revision and content hash into the sidecars and
return `True`.

Modelled from the spec: the atomicity of a failed
`dbx.files_download_to_file` (the local file left untouched when the
download raises) is the behaviour of the external Dropbox SDK primitive,
which is not part of this repository; the spec's failure clause for
`pullIfNewer` states it. -/
def pull_if_newer (env : PullEnv) (st : SyncState) : SyncOut :=
  if env.probeOk = false then ⟨.err .remoteUnavailable, st, []⟩
  else
    match st.remote with
    | none => ⟨.ok false, st, []⟩
    | some r =>
      if upToDate st r then ⟨.ok false, st, []⟩
      else
        if env.downloadOk then
          ⟨.ok true,
            recordSidecars env.revWriteOk env.hashWriteOk r.rev r.contentHash
              { st with localFile := some r.content },
            [SyncEv.download]⟩
        else
          ⟨.err .remoteUnavailable, st, [SyncEv.download]⟩

/-- Shallow embedding of `storage_dropbox.push_with_rev`: a missing local
file raises `FileNotFoundError`; a pre-push backup is attempted (failure
logged, not blocking); the sidecar revision is read and the remote probed
(transport failure raises).  With no remote file the local bytes are
uploaded with `WriteMode.add` (any `ApiError` raises).  With a remote file:
no sidecar revision means refuse (`False`, no upload); a sidecar revision
different from the remote revision is a conflict — make a conflicted copy
(failure logged) and return `False` without uploading; equal revisions
upload with `WriteMode.update(rev)`, where a conflict error from the store
(concurrent change) again makes a conflicted copy and returns `False`, any
other `ApiError` raises, and an accepted upload replaces the remote object
and persists the new revision and hash into the sidecars, returning
`True`. -/
def push_with_rev (env : PushEnv) (st : SyncState) : SyncOut :=
  match st.localFile with
  | none => ⟨.err .localFileMissing, st, []⟩
  | some bytes =>
    let evB : List SyncEv := if env.backupOk then [SyncEv.backup] else []
    if env.probeOk = false then ⟨.err .remoteUnavailable, st, evB⟩
    else
      match st.remote with
      | none =>
        match env.addRes with
        | .accepted rev hash =>
          ⟨.ok true,
            recordSidecars env.revWriteOk env.hashWriteOk rev hash
              { st with remote := some (RemoteObj.mk rev hash bytes) },
            evB ++ [SyncEv.uploadAdd bytes]⟩
        | .conflictErr => ⟨.err .remoteUnavailable, st, evB ++ [SyncEv.uploadAdd bytes]⟩
        | .otherErr => ⟨.err .remoteUnavailable, st, evB ++ [SyncEv.uploadAdd bytes]⟩
      | some r =>
        match st.sidecarRev with
        | none => ⟨.ok false, st, evB⟩
        | some currentRev =>
          if currentRev = r.rev then
            match env.updRes with
            | .accepted rev hash =>
              ⟨.ok true,
                recordSidecars env.revWriteOk env.hashWriteOk rev hash
                  { st with remote := some (RemoteObj.mk rev hash bytes) },
                evB ++ [SyncEv.uploadUpd currentRev bytes]⟩
            | .conflictErr =>
              ⟨.ok false, st,
                evB ++ [SyncEv.uploadUpd currentRev bytes]
                  ++ (if env.conflictedOk then [SyncEv.conflictedCopy bytes] else [])⟩
            | .otherErr =>
              ⟨.err .remoteUnavailable, st, evB ++ [SyncEv.uploadUpd currentRev bytes]⟩
          else
            ⟨.ok false, st,
              evB ++ (if env.conflictedOk then [SyncEv.conflictedCopy bytes] else [])⟩

/-- Whether an external action is a `files_upload` call. -/
def isUpload : SyncEv → Bool
  | .uploadAdd _ => true
  | .uploadUpd _ _ => true
  | _ => false

/-- No upload call occurs in a trace. -/
def noUpload (evs : List SyncEv) : Bool :=
  evs.all (fun e => !isUpload e)

/-- A concrete remote object for the sync witnesses. -/
def rWit : RemoteObj := RemoteObj.mk ("r2") ("h2") [7]

/-- A concrete all-successful push environment for the sync witnesses. -/
def pushEnvWit : PushEnv :=
  PushEnv.mk true true true (UpRes.accepted ("r3") ("h3"))
    (UpRes.accepted ("r3") ("h3")) true true

/-- The constant `storage_dropbox.MAX_BACKUPS`: backups kept per database. -/
def MAX_BACKUPS : Nat := 3

/-- A file in the backup directory: its name and its modification time
(`st_mtime`; `shutil.copy2` preserves the source file's mtime). -/
structure BEntry where
  name : String
  mtime : Nat
deriving DecidableEq, Repr

/-- Whether `p` is a prefix of `l`. -/
def listHasPre : List Char → List Char → Bool
  | [], _ => true
  | _ :: _, [] => false
  | a :: as, b :: bs => a == b && listHasPre as bs

/-- Whether `seg` occurs contiguously somewhere in `l`. -/
def listHasSeg (seg : List Char) : List Char → Bool
  | [] => seg.isEmpty
  | c :: rest => listHasPre seg (c :: rest) || listHasSeg seg rest

/-- The glob pattern `f"{base_stem}_*.bak*"` used by `_rotate_backups`: the
name starts with `stem + "_"` and the remainder contains `".bak"` (each `*`
matches any, possibly empty, run of characters). -/
def globBak (stem name : String) : Bool :=
  let p := (stem ++ "_").data
  listHasPre p name.data && listHasSeg (String.data (".bak")) (name.data.drop p.length)

/-- One step of the (stable) descending-by-mtime insertion sort modelling
`sorted(..., key=lambda p: p.stat().st_mtime, reverse=True)`. -/
def insertByMtimeDesc (e : BEntry) : List BEntry → List BEntry
  | [] => [e]
  | x :: xs => if x.mtime < e.mtime then e :: x :: xs else x :: insertByMtimeDesc e xs

/-- Sort the glob result by mtime, newest first. -/
def sortByMtimeDesc : List BEntry → List BEntry
  | [] => []
  | x :: xs => insertByMtimeDesc x (sortByMtimeDesc xs)

/-- Shallow embedding of `storage_dropbox._rotate_backups`: glob
`{stem}_*.bak*` in the backup directory, sort the matches by mtime newest
first, and unlink (by name) every match beyond the first `MAX_BACKUPS`. -/
def _rotate_backups (dir : List BEntry) (stem : String) : List BEntry :=
  dir.filter (fun e =>
    ! ((sortByMtimeDesc (dir.filter (fun e => globBak stem e.name))).drop
        MAX_BACKUPS).any (fun v => v.name == e.name))

/-- The name `f"{local.stem}_{ts}.bak{local.suffix}"` of an ordinary
backup. -/
def bakName (stem ts sfx : String) : String :=
  stem ++ "_" ++ ts ++ ".bak" ++ sfx

/-- The name `f"{local.stem}_conflicted_{ts}{local.suffix}"` of a
conflicted copy. -/
def conflictedName (stem ts sfx : String) : String :=
  stem ++ "_conflicted_" ++ ts ++ sfx

/-- The effect of `shutil.copy2` into the backup directory: create the file, overwriting
any existing file of the same name, with the source file's mtime. -/
def setEntry (dir : List BEntry) (e : BEntry) : List BEntry :=
  dir.filter (fun x => x.name != e.name) ++ [e]

/-- Shallow embedding of `storage_dropbox._make_backup`: copy the local
file (timestamp `ts`, source mtime `srcMtime`) into the backup directory
under the ordinary backup name, then rotate the backups for this stem. -/
def _make_backup (dir : List BEntry) (stem sfx ts : String) (srcMtime : Nat) :
    List BEntry :=
  _rotate_backups (setEntry dir (BEntry.mk (bakName stem ts sfx) srcMtime)) stem

/-- Shallow embedding of `storage_dropbox._make_conflicted_copy`: copy the
local file under the conflicted name; no rotation. -/
def _make_conflicted_copy (dir : List BEntry) (stem sfx ts : String)
    (srcMtime : Nat) : List BEntry :=
  setEntry dir (BEntry.mk (conflictedName stem ts sfx) srcMtime)

/-- A sequence of `_make_backup` calls, with the timestamp and source mtime
of each. -/
def runBackups (stem sfx : String) : List (String × Nat) → List BEntry → List BEntry
  | [], dir => dir
  | p :: ps, dir => runBackups stem sfx ps (_make_backup dir stem sfx p.1 p.2)

/-- The ordinary-rotation matches for a stem in a directory. -/
def globMatches (dir : List BEntry) (stem : String) : List BEntry :=
  dir.filter (fun e => globBak stem e.name)

/- Theorems. -/

/-- Claim C7: `probe_remote` returns NotFound (`none`) exactly when the
store reports that the path does not exist or when the returned object is
not a plain file; every transport or authentication failure instead raises
the distinct hard failure `RemoteUnavailable`, and no response ever yields
both, so a caller can never confuse a missing file with an unreachable
service. -/
theorem c7_probe_remote_not_found_vs_unavailable (r : DbxMetaResponse) :
    (probe_remote r = .ok none ↔ (r = .apiErrPath ∨ r = .nonFileMeta)) ∧
    (probe_remote r = .err .remoteUnavailable ↔
      (r = .apiErrOther ∨ r = .apiErrOpaque ∨ r = .authErr)) ∧
    ¬ (probe_remote r = .ok none ∧ probe_remote r = .err .remoteUnavailable) := by
  cases r <;> simp [probe_remote]

/-- Claim C10: the `transaction` context manager rejects any begin mode
whose normalized form (`strip().upper()`) is not DEFERRED, IMMEDIATE or
EXCLUSIVE with a `ValueError` before touching the connection; for a valid
mode, a block that completes normally is committed, and a block that raises
is rolled back (the connection data reverts to its state at `BEGIN`) with
the same exception propagating; in every case the connection ends outside
an open transaction. -/
theorem c10_transaction_modes_commit_rollback {α ε : Type}
    (beginMode : String) (conn : Conn α) (body : Conn α → Conn α × Option ε)
    (hIn : conn.inTx = false) :
    (validMode beginMode = false →
      transaction beginMode conn body = (conn, some TxErr.valueError)) ∧
    (validMode beginMode = true →
      (∀ c2, body { conn with inTx := true } = (c2, none) →
        transaction beginMode conn body = ({ c2 with inTx := false }, none)) ∧
      (∀ c2 e, body { conn with inTx := true } = (c2, some e) →
        transaction beginMode conn body =
          ({ conn with inTx := false }, some (TxErr.raised e)))) ∧
    (transaction beginMode conn body).1.inTx = false := by
  refine ⟨?_, ?_, ?_⟩
  · intro hv
    simp [transaction, hv]
  · intro hv
    constructor
    · intro c2 hb
      simp [transaction, hv, hb]
    · intro c2 e hb
      simp [transaction, hv, hb]
  · by_cases hv : validMode beginMode
    · rcases hb : body { conn with inTx := true } with ⟨c2, r⟩
      cases r <;> simp [transaction, hv, hb]
    · simp [transaction, hv, hIn]

/-- Witness for C10: a concrete run of both the invalid-mode branch and the
commit branch. -/
theorem c10_transaction_witness :
    (transaction "nonsense" (Conn.mk (0 : Nat) false)
        (fun c => (c, (none : Option Unit))) =
        (Conn.mk 0 false, some TxErr.valueError)) ∧
    (transaction " deferred " (Conn.mk (0 : Nat) false)
        (fun c => ({ c with data := 7 }, (none : Option Unit))) =
        (Conn.mk 7 false, none)) := by
  refine ⟨?_, ?_⟩
  · exact (c10_transaction_modes_commit_rollback "nonsense"
      (Conn.mk (0 : Nat) false) (fun c => (c, (none : Option Unit))) rfl).1 (by decide)
  · exact ((c10_transaction_modes_commit_rollback " deferred "
      (Conn.mk (0 : Nat) false) (fun c => ({ c with data := 7 }, (none : Option Unit)))
      rfl).2.1 (by decide)).1 (Conn.mk 7 true) rfl

theorem validMode_DEFERRED : validMode ("DEFERRED") = true := by decide

theorem migStep_tx_ok (m : MigFn σ) (v : Nat) (conn : Conn (MigData σ))
    (d : MigData σ) (h : m conn.data = some d) :
    transaction ("DEFERRED") conn (migStepBody m v) =
      (Conn.mk { d with userVersion := v } false, none) := by
  simp [transaction, validMode_DEFERRED, migStepBody, h]

theorem migStep_tx_err (m : MigFn σ) (v : Nat) (conn : Conn (MigData σ))
    (h : m conn.data = none) :
    transaction ("DEFERRED") conn (migStepBody m v) =
      ({ conn with inTx := false }, some (TxErr.raised ())) := by
  simp [transaction, validMode_DEFERRED, migStepBody, h]

theorem migrateSteps_ok (migs : Nat → Option (MigFn σ)) :
    ∀ (vs : List Nat) (conn : Conn (MigData σ)) (d : MigData σ),
      conn.inTx = false → applySteps migs vs conn.data = some d →
      migrateSteps migs vs conn = (Conn.mk d false, none) := by
  intro vs
  induction vs with
  | nil =>
    intro conn d hIn h
    simp only [applySteps, Option.some.injEq] at h
    cases conn with
    | mk dd tx => cases h; cases hIn; rfl
  | cons v rest ih =>
    intro conn d hIn h
    rcases hm : migs v with _ | m
    · simp [applySteps, hm] at h
    · rcases hmd : m conn.data with _ | d2
      · simp [applySteps, hm, hmd] at h
      · simp only [applySteps, hm, hmd] at h
        simp only [migrateSteps, hm, migStep_tx_ok m v conn d2 hmd]
        exact ih (Conn.mk { d2 with userVersion := v } false) d rfl h

theorem migrateSteps_append_ok (migs : Nat → Option (MigFn σ)) :
    ∀ (vs1 ks : List Nat) (conn : Conn (MigData σ)) (d : MigData σ),
      conn.inTx = false → applySteps migs vs1 conn.data = some d →
      migrateSteps migs (vs1 ++ ks) conn = migrateSteps migs ks (Conn.mk d false) := by
  intro vs1
  induction vs1 with
  | nil =>
    intro ks conn d hIn h
    simp only [applySteps, Option.some.injEq] at h
    cases conn with
    | mk dd tx => cases h; cases hIn; rfl
  | cons v rest ih =>
    intro ks conn d hIn h
    rcases hm : migs v with _ | m
    · simp [applySteps, hm] at h
    · rcases hmd : m conn.data with _ | d2
      · simp [applySteps, hm, hmd] at h
      · simp only [applySteps, hm, hmd] at h
        simp only [List.cons_append, migrateSteps, hm,
          migStep_tx_ok m v conn d2 hmd]
        exact ih ks (Conn.mk { d2 with userVersion := v } false) d rfl h

theorem applySteps_range'_userVersion (migs : Nat → Option (MigFn σ)) :
    ∀ (n s : Nat) (d0 d : MigData σ),
      0 < n → applySteps migs (List.range' s n) d0 = some d →
      d.userVersion = s + n - 1 := by
  intro n
  induction n with
  | zero => intro s d0 d h; omega
  | succ n ih =>
    intro s d0 d _ h
    rw [List.range'_succ] at h
    rcases hm : migs s with _ | m
    · simp [applySteps, hm] at h
    · rcases hmd : m d0 with _ | d2
      · simp [applySteps, hm, hmd] at h
      · simp only [applySteps, hm, hmd] at h
        cases n with
        | zero =>
          simp only [List.range', applySteps, Option.some.injEq] at h
          cases h
          simp
        | succ n2 =>
          have := ih (s + 1) { d2 with userVersion := s } d (by omega) h
          omega

theorem migrateSteps_mono (migs : Nat → Option (MigFn σ)) :
    ∀ (n u : Nat) (conn : Conn (MigData σ)), conn.data.userVersion = u →
      u ≤ ((migrateSteps migs (List.range' (u + 1) n) conn).1).data.userVersion := by
  intro n
  induction n with
  | zero =>
    intro u conn h
    simp [migrateSteps, h]
  | succ n ih =>
    intro u conn h
    rw [List.range'_succ]
    rcases hm : migs (u + 1) with _ | m
    · simp [migrateSteps, hm, h]
    · rcases hmd : m conn.data with _ | d2
      · simp only [migrateSteps, hm, migStep_tx_err m (u + 1) conn hmd]
        simp [h]
      · simp only [migrateSteps, hm, migStep_tx_ok m (u + 1) conn d2 hmd]
        have hrec := ih (u + 1) (Conn.mk { d2 with userVersion := u + 1 } false) rfl
        omega

/-- Claim C4: the migration engine refuses to run when `current > target`
(fatal, nothing changed); is a no-op when `current = target`; otherwise
applies the registered migrations for `current+1 .. target` in ascending
order — a successful run reaches exactly the sequential application of the
registered steps, ending at version `target`; an unregistered version is
fatal; and each step runs together with its version bump in one
transaction, so that when step `k` fails (or is unregistered) after a
successful prefix, the connection holds exactly the state committed by the
first `k-1` steps: the persisted version is `k-1` and none of step `k`'s
schema changes are observable. -/
theorem c4_migrate_refuse_noop_ascend_atomic {σ : Type}
    (migs : Nat → Option (MigFn σ)) (target : Nat)
    (conn : Conn (MigData σ)) (hIn : conn.inTx = false) :
    (target < conn.data.userVersion →
      _migrate migs target conn =
        (conn, some (MigErr.futureSchema conn.data.userVersion target))) ∧
    (conn.data.userVersion = target → _migrate migs target conn = (conn, none)) ∧
    (conn.data.userVersion < target →
      (∀ d, applySteps migs
          (List.range' (conn.data.userVersion + 1) (target - conn.data.userVersion))
          conn.data = some d →
        _migrate migs target conn = (Conn.mk d false, none) ∧
          d.userVersion = target) ∧
      (∀ k d, conn.data.userVersion < k → k ≤ target →
        applySteps migs
          (List.range' (conn.data.userVersion + 1) (k - 1 - conn.data.userVersion))
          conn.data = some d →
        d.userVersion = k - 1 ∧
        (migs k = none →
          _migrate migs target conn =
            (Conn.mk d false, some (MigErr.noMigration k))) ∧
        (∀ m, migs k = some m → m d = none →
          _migrate migs target conn =
            (Conn.mk d false, some (MigErr.stepFailed k))))) := by
  refine ⟨?_, ?_, ?_⟩
  · intro h
    simp [_migrate, h]
  · intro h
    simp [_migrate, h]
  · intro hlt
    have h1 : ¬ target < conn.data.userVersion := by omega
    have h2 : ¬ conn.data.userVersion = target := by omega
    constructor
    · intro d hd
      constructor
      · simp only [_migrate, if_neg h1, if_neg h2]
        exact migrateSteps_ok migs _ conn d hIn hd
      · have hv := applySteps_range'_userVersion migs
          (target - conn.data.userVersion) (conn.data.userVersion + 1)
          conn.data d (by omega) hd
        omega
    · intro k d hk1 hk2 hd
      have hsplit : List.range' (conn.data.userVersion + 1)
            (target - conn.data.userVersion)
          = List.range' (conn.data.userVersion + 1)
              (k - 1 - conn.data.userVersion)
            ++ (k :: List.range' (k + 1) (target - k)) := by
        have h3 : target - conn.data.userVersion
            = (target - k + 1) + (k - 1 - conn.data.userVersion) := by omega
        have h4 : conn.data.userVersion + 1 + (k - 1 - conn.data.userVersion)
            = k := by omega
        rw [h3, ← List.range'_append_1, h4, List.range'_succ]
      have hmig : _migrate migs target conn
          = migrateSteps migs (k :: List.range' (k + 1) (target - k))
              (Conn.mk d false) := by
        simp only [_migrate, if_neg h1, if_neg h2]
        rw [hsplit]
        exact migrateSteps_append_ok migs _ _ conn d hIn hd
      have hver : d.userVersion = k - 1 := by
        rcases Nat.eq_zero_or_pos (k - 1 - conn.data.userVersion) with hz | hp
        · rw [hz] at hd
          simp only [List.range'_zero, applySteps, Option.some.injEq] at hd
          subst hd
          omega
        · have := applySteps_range'_userVersion migs
            (k - 1 - conn.data.userVersion) (conn.data.userVersion + 1)
            conn.data d hp hd
          omega
      refine ⟨hver, ?_, ?_⟩
      · intro hmk
        rw [hmig]
        simp [migrateSteps, hmk]
      · intro m hmk hmd
        rw [hmig]
        simp only [migrateSteps, hmk,
          migStep_tx_err m k (Conn.mk d false) hmd]

/-- Claim C9: the persisted schema version is monotonically non-decreasing
across the migration engine — `_migrate` never lowers `user_version` — and
a client whose persisted version exceeds its target refuses to proceed with
a fatal error, leaving the connection untouched. -/
theorem c9_user_version_monotone {σ : Type}
    (migs : Nat → Option (MigFn σ)) (target : Nat) (conn : Conn (MigData σ)) :
    conn.data.userVersion ≤ ((_migrate migs target conn).1).data.userVersion ∧
    (target < conn.data.userVersion →
      _migrate migs target conn =
        (conn, some (MigErr.futureSchema conn.data.userVersion target))) := by
  constructor
  · by_cases hgt : target < conn.data.userVersion
    · simp [_migrate, hgt]
    · by_cases heq : conn.data.userVersion = target
      · simp [_migrate, hgt, heq]
      · simp only [_migrate, if_neg hgt, if_neg heq]
        exact migrateSteps_mono migs _ _ conn rfl
  · intro h
    simp [_migrate, h]

/-- Witness for C4: a fresh database at version 0 with the single
registered migration reaches version `SCHEMA_VERSION = 1` with the
migration's effect applied. -/
theorem c4_witness :
    _migrate migsW SCHEMA_VERSION (Conn.mk (MigData.mk 0 10) false)
      = (Conn.mk (MigData.mk 1 15) false, none) :=
  (((c4_migrate_refuse_noop_ascend_atomic migsW SCHEMA_VERSION
      (Conn.mk (MigData.mk 0 10) false) rfl).2.2 (by decide)).1
    (MigData.mk 1 15) (by decide)).1

/-- Witness for C9: a database already past the target refuses with the
fatal future-schema error and is left unchanged, and the version does not
decrease. -/
theorem c9_witness :
    _migrate migsW 1 (Conn.mk (MigData.mk 5 0) false)
      = (Conn.mk (MigData.mk 5 0) false, some (MigErr.futureSchema 5 1)) :=
  (c9_user_version_monotone migsW 1 (Conn.mk (MigData.mk 5 0) false)).2 (by decide)

theorem noUpload_append (a b : List SyncEv) :
    noUpload (a ++ b) = (noUpload a && noUpload b) := by
  simp [noUpload, List.all_append]

theorem noUpload_backupOpt (b : Bool) :
    noUpload (if b then [SyncEv.backup] else []) = true := by
  cases b <;> simp [noUpload, isUpload]

theorem noUpload_conflictedOpt (b : Bool) (bytes : List Nat) :
    noUpload (if b then [SyncEv.conflictedCopy bytes] else []) = true := by
  cases b <;> simp [noUpload, isUpload]

theorem upToDate_eq_true (st : SyncState) (r : RemoteObj) :
    upToDate st r = true ↔
      (st.localFile.isSome = true ∧ st.sidecarRev = some r.rev ∧
        st.sidecarHash = some r.contentHash) := by
  simp [upToDate, Bool.and_assoc]

/-- Claim C1: when the remote object exists, `push_with_rev` performs no
`files_upload` call — and hence leaves the remote object unchanged —
whenever the stored sidecar revision differs from the remote's current
revision, in any environment; in particular with no sidecar revision at all
(and the local file present, the probe reachable) it refuses the push and
returns `False` without uploading, leaving the state untouched. -/
theorem c1_push_never_uploads_without_matching_rev
    (st : SyncState) (r : RemoteObj) (hr : st.remote = some r) :
    (∀ env : PushEnv, st.sidecarRev ≠ some r.rev →
      noUpload (push_with_rev env st).evs = true ∧
      (push_with_rev env st).state.remote = st.remote) ∧
    (∀ (env : PushEnv) (bytes : List Nat), env.probeOk = true →
      st.localFile = some bytes → st.sidecarRev = none →
      (push_with_rev env st).res = SyncRes.ok false ∧
      noUpload (push_with_rev env st).evs = true ∧
      (push_with_rev env st).state = st) := by
  obtain ⟨rem, lf, sr, sh⟩ := st
  simp only [Option.some.injEq] at hr
  subst hr
  constructor
  · intro env hne
    cases lf with
    | none => simp [push_with_rev, noUpload]
    | some bytes =>
      cases hpo : env.probeOk with
      | false => simp [push_with_rev, hpo, noUpload_backupOpt]
      | true =>
        cases sr with
        | none => simp [push_with_rev, hpo, noUpload_backupOpt]
        | some cur =>
          have hcur : ¬ cur = r.rev := by
            intro h
            exact hne (by simp [h])
          simp [push_with_rev, hpo, hcur, noUpload_append,
            noUpload_backupOpt, noUpload_conflictedOpt]
  · intro env bytes hpo hl hsr
    simp only [Option.some.injEq] at hl
    subst hl
    cases hsr
    simp [push_with_rev, hpo, noUpload_backupOpt]

/-- Claim C2: with the remote object present and a stored sidecar revision
different from the remote's current revision, `push_with_rev` (probe
reachable, conflicted-copy creation succeeding) returns `False` without
raising, records a conflicted backup copy of the local bytes, performs no
upload, and leaves the state — in particular the remote object,
byte-for-byte — unchanged. -/
theorem c2_push_conflict_refuses_and_backs_up
    (env : PushEnv) (st : SyncState) (r : RemoteObj) (bytes : List Nat)
    (v : String) (hp : env.probeOk = true) (hc : env.conflictedOk = true)
    (hr : st.remote = some r) (hl : st.localFile = some bytes)
    (hv : st.sidecarRev = some v) (hne : v ≠ r.rev) :
    (push_with_rev env st).res = SyncRes.ok false ∧
    SyncEv.conflictedCopy bytes ∈ (push_with_rev env st).evs ∧
    noUpload (push_with_rev env st).evs = true ∧
    (push_with_rev env st).state = st := by
  obtain ⟨rem, lf, sr, sh⟩ := st
  simp only [Option.some.injEq] at hr hl hv
  subst hr; subst hl; subst hv
  simp [push_with_rev, hp, hc, hne, noUpload_append, noUpload_backupOpt,
    noUpload, isUpload]

/-- Claim C3: with the probe reachable and download and sidecar writes
succeeding, `pull_if_newer` returns `False` exactly when the remote object
does not exist, or the local file exists and both sidecar values equal the
remote revision and content hash; in every other case it downloads the
remote content over the local file, persists the remote revision and hash
into the sidecars, and returns `True`. -/
theorem c3_pull_false_iff_current
    (env : PullEnv) (st : SyncState)
    (hp : env.probeOk = true) (hd : env.downloadOk = true)
    (hw1 : env.revWriteOk = true) (hw2 : env.hashWriteOk = true) :
    ((pull_if_newer env st).res = SyncRes.ok false ↔
      (st.remote = none ∨
        ∃ r, st.remote = some r ∧ st.localFile.isSome = true ∧
          st.sidecarRev = some r.rev ∧ st.sidecarHash = some r.contentHash)) ∧
    (∀ r, st.remote = some r → upToDate st r = false →
      pull_if_newer env st =
        ⟨SyncRes.ok true,
          SyncState.mk (some r) (some r.content) (some r.rev) (some r.contentHash),
          [SyncEv.download]⟩) := by
  constructor
  · cases hrem : st.remote with
    | none => simp [pull_if_newer, hp, hrem]
    | some r =>
      cases hu : upToDate st r with
      | true =>
        have hres : (pull_if_newer env st).res = SyncRes.ok false := by
          simp [pull_if_newer, hp, hrem, hu]
        rw [hres]
        exact iff_of_true rfl
          (Or.inr ⟨r, rfl, (upToDate_eq_true st r).mp hu⟩)
      | false =>
        have hres : (pull_if_newer env st).res = SyncRes.ok true := by
          simp [pull_if_newer, hp, hrem, hu, hd]
        rw [hres]
        refine iff_of_false (by simp) ?_
        rintro (h | ⟨r2, hr2, hcur⟩)
        · simp at h
        · injection hr2 with he
          subst he
          have hT : upToDate st r = true := (upToDate_eq_true st r).mpr hcur
          rw [hu] at hT
          simp at hT
  · intro r hrem hu
    obtain ⟨rem, lf, sr, sh⟩ := st
    simp only [Option.some.injEq] at hrem
    subst hrem
    simp [pull_if_newer, hp, hu, hd, recordSidecars, hw1, hw2]

/-- Claim C5: when the download step of `pull_if_newer` fails (probe
reachable, remote present, local copy not current so the download is
attempted), the call raises the hard failure `RemoteUnavailable` and the
state — local file content and both sidecar values — is exactly what it was
before the call. -/
theorem c5_pull_download_failure_leaves_state
    (env : PullEnv) (st : SyncState) (r : RemoteObj)
    (hp : env.probeOk = true) (hd : env.downloadOk = false)
    (hr : st.remote = some r) (hu : upToDate st r = false) :
    pull_if_newer env st =
      ⟨SyncRes.err SyncErr.remoteUnavailable, st, [SyncEv.download]⟩ := by
  simp [pull_if_newer, hp, hr, hu, hd]

/-- Claim C8: with the probe, download and sidecar writes all succeeding,
two consecutive `pull_if_newer` calls with no intervening remote change
perform at most one download between them, and the second call returns
`False` without downloading. -/
theorem c8_pull_idempotent (env : PullEnv) (st : SyncState)
    (hp : env.probeOk = true) (hd : env.downloadOk = true)
    (hw1 : env.revWriteOk = true) (hw2 : env.hashWriteOk = true) :
    (pull_if_newer env (pull_if_newer env st).state).res = SyncRes.ok false ∧
    (pull_if_newer env (pull_if_newer env st).state).evs = [] ∧
    ((pull_if_newer env st).evs ++
        (pull_if_newer env (pull_if_newer env st).state).evs).count
      SyncEv.download ≤ 1 := by
  obtain ⟨rem, lf, sr, sh⟩ := st
  cases rem with
  | none =>
    simp [pull_if_newer, hp]
  | some r =>
    cases hu : upToDate (SyncState.mk (some r) lf sr sh) r with
    | true =>
      simp [pull_if_newer, hp, hu]
    | false =>
      have h1 : pull_if_newer env (SyncState.mk (some r) lf sr sh) =
          ⟨SyncRes.ok true,
            SyncState.mk (some r) (some r.content) (some r.rev)
              (some r.contentHash), [SyncEv.download]⟩ := by
        simp [pull_if_newer, hp, hu, hd, recordSidecars, hw1, hw2]
      have h2 : upToDate
          (SyncState.mk (some r) (some r.content) (some r.rev)
            (some r.contentHash)) r = true := by
        simp [upToDate]
      rw [h1]
      simp [pull_if_newer, hp, h2]

/-- Witness for C1: remote present, no sidecar revision — the push refuses
with `False`, uploads nothing, and changes nothing. -/
theorem c1_witness :
    (push_with_rev pushEnvWit
        (SyncState.mk (some rWit) (some [9]) none none)).res = SyncRes.ok false ∧
    noUpload (push_with_rev pushEnvWit
        (SyncState.mk (some rWit) (some [9]) none none)).evs = true ∧
    (push_with_rev pushEnvWit
        (SyncState.mk (some rWit) (some [9]) none none)).state =
      SyncState.mk (some rWit) (some [9]) none none :=
  (c1_push_never_uploads_without_matching_rev
      (SyncState.mk (some rWit) (some [9]) none none) rWit rfl).2
    pushEnvWit [9] rfl rfl rfl

/-- Witness for C2: sidecar revision r1 against remote revision r2 — the
push returns `False`, makes a conflicted copy, uploads nothing, and leaves
the state unchanged. -/
theorem c2_witness :
    (push_with_rev pushEnvWit
        (SyncState.mk (some rWit) (some [9]) (some ("r1")) (some ("h1")))).res
      = SyncRes.ok false ∧
    SyncEv.conflictedCopy [9] ∈ (push_with_rev pushEnvWit
        (SyncState.mk (some rWit) (some [9]) (some ("r1")) (some ("h1")))).evs ∧
    noUpload (push_with_rev pushEnvWit
        (SyncState.mk (some rWit) (some [9]) (some ("r1")) (some ("h1")))).evs
      = true ∧
    (push_with_rev pushEnvWit
        (SyncState.mk (some rWit) (some [9]) (some ("r1")) (some ("h1")))).state
      = SyncState.mk (some rWit) (some [9]) (some ("r1")) (some ("h1")) :=
  c2_push_conflict_refuses_and_backs_up pushEnvWit
    (SyncState.mk (some rWit) (some [9]) (some ("r1")) (some ("h1")))
    rWit [9] ("r1") rfl rfl rfl rfl rfl (by decide)

/-- Witness for C3: remote present, no local file — the pull downloads and
persists revision and hash into the sidecars. -/
theorem c3_witness :
    pull_if_newer (PullEnv.mk true true true true)
        (SyncState.mk (some rWit) none none none) =
      ⟨SyncRes.ok true,
        SyncState.mk (some rWit) (some rWit.content) (some rWit.rev)
          (some rWit.contentHash), [SyncEv.download]⟩ :=
  (c3_pull_false_iff_current (PullEnv.mk true true true true)
      (SyncState.mk (some rWit) none none none) rfl rfl rfl rfl).2
    rWit rfl (by decide)

/-- Witness for C5: the download fails — `RemoteUnavailable` is raised and
the state is untouched. -/
theorem c5_witness :
    pull_if_newer (PullEnv.mk true false true true)
        (SyncState.mk (some rWit) none none none) =
      ⟨SyncRes.err SyncErr.remoteUnavailable,
        SyncState.mk (some rWit) none none none, [SyncEv.download]⟩ :=
  c5_pull_download_failure_leaves_state (PullEnv.mk true false true true)
    (SyncState.mk (some rWit) none none none) rWit rfl rfl rfl (by decide)

/-- Witness for C8: two consecutive pulls — the second returns `False` with
no download, one download in total. -/
theorem c8_witness :
    (pull_if_newer (PullEnv.mk true true true true)
        (pull_if_newer (PullEnv.mk true true true true)
          (SyncState.mk (some rWit) none none none)).state).res
      = SyncRes.ok false ∧
    (pull_if_newer (PullEnv.mk true true true true)
        (pull_if_newer (PullEnv.mk true true true true)
          (SyncState.mk (some rWit) none none none)).state).evs = [] ∧
    ((pull_if_newer (PullEnv.mk true true true true)
          (SyncState.mk (some rWit) none none none)).evs ++
        (pull_if_newer (PullEnv.mk true true true true)
          (pull_if_newer (PullEnv.mk true true true true)
            (SyncState.mk (some rWit) none none none)).state).evs).count
      SyncEv.download ≤ 1 :=
  c8_pull_idempotent (PullEnv.mk true true true true)
    (SyncState.mk (some rWit) none none none) rfl rfl rfl rfl

theorem listHasPre_self_append (p q : List Char) :
    listHasPre p (p ++ q) = true := by
  induction p with
  | nil => rfl
  | cons a as ih => simp [listHasPre, ih]

theorem listHasSeg_of_pre (seg l : List Char) (h : listHasPre seg l = true) :
    listHasSeg seg l = true := by
  cases l with
  | nil =>
    cases seg with
    | nil => rfl
    | cons a as => simp [listHasPre] at h
  | cons c rest => simp [listHasSeg, h]

theorem listHasSeg_append_mid (xs seg ys : List Char) :
    listHasSeg seg (xs ++ (seg ++ ys)) = true := by
  induction xs with
  | nil => exact listHasSeg_of_pre seg (seg ++ ys) (listHasPre_self_append seg ys)
  | cons x xs ih => simp [listHasSeg, ih]

theorem globBak_bakName (stem ts sfx : String) :
    globBak stem (bakName stem ts sfx) = true := by
  have hdata : (bakName stem ts sfx).data
      = (stem ++ "_").data ++ (ts.data ++ (String.data (".bak") ++ sfx.data)) := by
    simp [bakName, String.data_append]
  simp only [globBak, hdata, Bool.and_eq_true]
  constructor
  · exact listHasPre_self_append _ _
  · rw [List.drop_left]
    have := listHasSeg_append_mid ts.data (String.data (".bak")) sfx.data
    simpa using this

theorem globBak_conflictedName (stem ts sfx : String) :
    globBak stem (conflictedName stem ts sfx)
      = listHasSeg (String.data (".bak"))
          (String.data ("conflicted_" ++ ts ++ sfx)) := by
  have hdata : (conflictedName stem ts sfx).data
      = (stem ++ "_").data ++ ("conflicted_" ++ ts ++ sfx).data := by
    simp [conflictedName, String.data_append]
  simp only [globBak]
  rw [hdata, List.drop_left, listHasPre_self_append, Bool.true_and]

theorem insertByMtimeDesc_perm (e : BEntry) (l : List BEntry) :
    (insertByMtimeDesc e l).Perm (e :: l) := by
  induction l with
  | nil => exact List.Perm.refl _
  | cons x xs ih =>
    by_cases hx : x.mtime < e.mtime
    · simp [insertByMtimeDesc, hx]
    · simp only [insertByMtimeDesc, hx, if_false]
      exact (List.Perm.cons x ih).trans (List.Perm.swap e x xs)

theorem sortByMtimeDesc_perm (l : List BEntry) :
    (sortByMtimeDesc l).Perm l := by
  induction l with
  | nil => exact List.Perm.refl _
  | cons x xs ih =>
    exact (insertByMtimeDesc_perm x (sortByMtimeDesc xs)).trans (List.Perm.cons x ih)

theorem insertByMtimeDesc_sorted (e : BEntry) (l : List BEntry)
    (h : l.Pairwise (fun a b => b.mtime ≤ a.mtime)) :
    (insertByMtimeDesc e l).Pairwise (fun a b => b.mtime ≤ a.mtime) := by
  induction l with
  | nil => simp [insertByMtimeDesc]
  | cons x xs ih =>
    rcases List.pairwise_cons.mp h with ⟨hx, hxs⟩
    by_cases hlt : x.mtime < e.mtime
    · simp only [insertByMtimeDesc, hlt, if_true]
      refine List.pairwise_cons.mpr ⟨?_, h⟩
      intro y hy
      rcases List.mem_cons.mp hy with rfl | hy2
      · omega
      · have := hx y hy2
        omega
    · simp only [insertByMtimeDesc, hlt, if_false]
      refine List.pairwise_cons.mpr ⟨?_, ih hxs⟩
      intro y hy
      have hy2 : y = e ∨ y ∈ xs := by
        have := (insertByMtimeDesc_perm e xs).mem_iff.mp hy
        simpa using this
      rcases hy2 with rfl | hy2
      · omega
      · exact hx y hy2

theorem sortByMtimeDesc_sorted (l : List BEntry) :
    (sortByMtimeDesc l).Pairwise (fun a b => b.mtime ≤ a.mtime) := by
  induction l with
  | nil => simp [sortByMtimeDesc]
  | cons x xs ih => exact insertByMtimeDesc_sorted x (sortByMtimeDesc xs) ih

theorem names_nodup_inj {l : List BEntry} (h : (l.map BEntry.name).Nodup)
    {x y : BEntry} (hx : x ∈ l) (hy : y ∈ l) (hname : x.name = y.name) :
    x = y :=
  List.inj_on_of_nodup_map h hx hy hname

theorem filter_comm_entries (p q : BEntry → Bool) (l : List BEntry) :
    (l.filter p).filter q = (l.filter q).filter p := by
  rw [List.filter_filter, List.filter_filter]
  exact List.filter_congr (fun a _ => Bool.and_comm _ _)

theorem globMatches_names_nodup (dir : List BEntry) (stem : String)
    (hnod : (dir.map BEntry.name).Nodup) :
    ((globMatches dir stem).map BEntry.name).Nodup :=
  ((List.filter_sublist dir).map BEntry.name).nodup hnod

theorem filter_not_names_of_split (l k v : List BEntry)
    (hperm : (k ++ v).Perm l) (hnames : (l.map BEntry.name).Nodup) :
    (l.filter (fun e => ! v.any (fun w => w.name == e.name))).Perm k := by
  have hnkv : ((k ++ v).map BEntry.name).Nodup :=
    ((hperm.map BEntry.name).nodup_iff).mpr hnames
  rw [List.map_append] at hnkv
  rcases List.nodup_append.mp hnkv with ⟨hk, hv, hdisj⟩
  have hvf : v.filter (fun e => ! v.any (fun w => w.name == e.name)) = [] := by
    apply List.filter_eq_nil_iff.mpr
    intro a ha
    have hany : v.any (fun w => w.name == a.name) = true :=
      List.any_eq_true.mpr ⟨a, ha, by simp⟩
    simp [hany]
  have hkf : k.filter (fun e => ! v.any (fun w => w.name == e.name)) = k := by
    apply List.filter_eq_self.mpr
    intro a ha
    rw [Bool.not_eq_true', List.any_eq_false]
    intro w hw
    intro hwa
    have hwa2 : w.name = a.name := by simpa using hwa
    exact hdisj (List.mem_map_of_mem BEntry.name ha)
      (hwa2 ▸ List.mem_map_of_mem BEntry.name hw)
  have hres := hperm.filter (fun e => ! v.any (fun w => w.name == e.name))
  rw [List.filter_append, hvf, hkf, List.append_nil] at hres
  exact hres.symm

theorem rotate_backups_eq (dir : List BEntry) (stem : String) :
    _rotate_backups dir stem
      = dir.filter (fun e =>
          ! ((sortByMtimeDesc (globMatches dir stem)).drop MAX_BACKUPS).any
              (fun v => v.name == e.name)) := rfl

theorem mem_globMatches {dir : List BEntry} {stem : String} {e : BEntry} :
    e ∈ globMatches dir stem ↔ e ∈ dir ∧ globBak stem e.name = true :=
  List.mem_filter

theorem victims_mem_matched (dir : List BEntry) (stem : String) {v : BEntry}
    (hv : v ∈ (sortByMtimeDesc (globMatches dir stem)).drop MAX_BACKUPS) :
    v ∈ globMatches dir stem :=
  (sortByMtimeDesc_perm _).mem_iff.mp (List.mem_of_mem_drop hv)

theorem rotate_matches_perm (dir : List BEntry) (stem : String)
    (hnod : (dir.map BEntry.name).Nodup) :
    (globMatches (_rotate_backups dir stem) stem).Perm
      ((sortByMtimeDesc (globMatches dir stem)).take MAX_BACKUPS) := by
  have hperm0 : (((sortByMtimeDesc (globMatches dir stem)).take MAX_BACKUPS)
      ++ ((sortByMtimeDesc (globMatches dir stem)).drop MAX_BACKUPS)).Perm
      (globMatches dir stem) := by
    rw [List.take_append_drop]
    exact sortByMtimeDesc_perm _
  have hmn := globMatches_names_nodup dir stem hnod
  have hmain := filter_not_names_of_split (globMatches dir stem) _ _ hperm0 hmn
  have h1 : globMatches (_rotate_backups dir stem) stem
      = (globMatches dir stem).filter
          (fun e => ! ((sortByMtimeDesc (globMatches dir stem)).drop
              MAX_BACKUPS).any (fun v => v.name == e.name)) := by
    unfold globMatches
    rw [rotate_backups_eq]
    exact filter_comm_entries _ _ dir
  rw [h1]
  exact hmain

theorem rotate_subset (dir : List BEntry) (stem : String) {e : BEntry}
    (he : e ∈ _rotate_backups dir stem) : e ∈ dir := by
  rw [rotate_backups_eq] at he
  exact (List.mem_filter.mp he).1

theorem rotate_mem_of_not_match (dir : List BEntry) (stem : String)
    (hnod : (dir.map BEntry.name).Nodup) {e : BEntry} (he : e ∈ dir)
    (hm : globBak stem e.name = false) : e ∈ _rotate_backups dir stem := by
  rw [rotate_backups_eq]
  refine List.mem_filter.mpr ⟨he, ?_⟩
  simp only [Bool.not_eq_true', List.any_eq_false]
  intro v hv hveq
  have hveq2 : v.name = e.name := by simpa using hveq
  have hvm := victims_mem_matched dir stem hv
  have hvdir : v ∈ dir := (mem_globMatches.mp hvm).1
  have hve : v = e := names_nodup_inj hnod hvdir he hveq2
  subst hve
  have hvt : globBak stem v.name = true := (mem_globMatches.mp hvm).2
  rw [hm] at hvt
  cases hvt

theorem rotate_keeps_newest (dir : List BEntry) (stem : String)
    (hnod : (dir.map BEntry.name).Nodup) {e f : BEntry}
    (he : e ∈ _rotate_backups dir stem) (hem : globBak stem e.name = true)
    (hf : f ∈ dir) (hfm : globBak stem f.name = true)
    (hfout : f ∉ _rotate_backups dir stem) : f.mtime ≤ e.mtime := by
  have heM : e ∈ globMatches (_rotate_backups dir stem) stem :=
    mem_globMatches.mpr ⟨he, hem⟩
  have heTake : e ∈ (sortByMtimeDesc (globMatches dir stem)).take MAX_BACKUPS :=
    (rotate_matches_perm dir stem hnod).mem_iff.mp heM
  have hany : ((sortByMtimeDesc (globMatches dir stem)).drop MAX_BACKUPS).any
      (fun v => v.name == f.name) = true := by
    cases hx : ((sortByMtimeDesc (globMatches dir stem)).drop MAX_BACKUPS).any
        (fun v => v.name == f.name) with
    | false =>
      exfalso
      apply hfout
      rw [rotate_backups_eq]
      refine List.mem_filter.mpr ⟨hf, ?_⟩
      simp [hx]
    | true => rfl
  obtain ⟨v, hv, hveq⟩ := List.any_eq_true.mp hany
  have hveq2 : v.name = f.name := by simpa using hveq
  have hvM := victims_mem_matched dir stem hv
  have hvf : v = f :=
    names_nodup_inj hnod (mem_globMatches.mp hvM).1 hf hveq2
  subst hvf
  have hsorted := sortByMtimeDesc_sorted (globMatches dir stem)
  rw [← List.take_append_drop MAX_BACKUPS
    (sortByMtimeDesc (globMatches dir stem))] at hsorted
  rcases List.pairwise_append.mp hsorted with ⟨_, _, hcross⟩
  exact hcross e heTake v hv

theorem rotate_max_survives (dir : List BEntry) (stem : String)
    (hnod : (dir.map BEntry.name).Nodup) {e : BEntry}
    (he : e ∈ dir) (hm : globBak stem e.name = true)
    (hmax : ∀ f ∈ dir, f ≠ e → f.mtime < e.mtime) :
    e ∈ _rotate_backups dir stem := by
  rw [rotate_backups_eq]
  refine List.mem_filter.mpr ⟨he, ?_⟩
  cases hx : ((sortByMtimeDesc (globMatches dir stem)).drop MAX_BACKUPS).any
      (fun v => v.name == e.name) with
  | false => simp [hx]
  | true =>
    exfalso
    obtain ⟨v, hv, hveq⟩ := List.any_eq_true.mp hx
    have hveq2 : v.name = e.name := by simpa using hveq
    have hvM := victims_mem_matched dir stem hv
    have hve : v = e :=
      names_nodup_inj hnod (mem_globMatches.mp hvM).1 he hveq2
    subst hve
    have hlen3 : MAX_BACKUPS < (sortByMtimeDesc (globMatches dir stem)).length := by
      by_contra hle
      have : (sortByMtimeDesc (globMatches dir stem)).drop MAX_BACKUPS = [] :=
        List.drop_eq_nil_of_le (by omega)
      rw [this] at hv
      cases hv
    have htne : (sortByMtimeDesc (globMatches dir stem)).take MAX_BACKUPS ≠ [] := by
      apply List.length_pos.mp
      rw [List.length_take]
      have h3 : MAX_BACKUPS = 3 := rfl
      omega
    obtain ⟨x, hxmem⟩ := List.exists_mem_of_ne_nil _ htne
    have hsn : (((sortByMtimeDesc (globMatches dir stem)).take MAX_BACKUPS
        ++ (sortByMtimeDesc (globMatches dir stem)).drop MAX_BACKUPS).map
          BEntry.name).Nodup := by
      rw [List.take_append_drop]
      exact (((sortByMtimeDesc_perm (globMatches dir stem)).map
        BEntry.name).nodup_iff).mpr (globMatches_names_nodup dir stem hnod)
    rw [List.map_append] at hsn
    rcases List.nodup_append.mp hsn with ⟨_, _, hdisj⟩
    have hxv : x ≠ v := by
      intro hxe
      subst hxe
      exact hdisj (List.mem_map_of_mem BEntry.name hxmem)
        (List.mem_map_of_mem BEntry.name hv)
    have hxdir : x ∈ dir := by
      have : x ∈ globMatches dir stem :=
        (sortByMtimeDesc_perm _).mem_iff.mp (List.mem_of_mem_take hxmem)
      exact (mem_globMatches.mp this).1
    have hxlt : x.mtime < v.mtime := hmax x hxdir hxv
    have hsorted := sortByMtimeDesc_sorted (globMatches dir stem)
    rw [← List.take_append_drop MAX_BACKUPS
      (sortByMtimeDesc (globMatches dir stem))] at hsorted
    rcases List.pairwise_append.mp hsorted with ⟨_, _, hcross⟩
    have := hcross x hxmem v hv
    omega

theorem setEntry_fresh (dir : List BEntry) (e : BEntry)
    (hfresh : ∀ x ∈ dir, x.name ≠ e.name) : setEntry dir e = dir ++ [e] := by
  unfold setEntry
  rw [List.filter_eq_self.mpr]
  intro x hx
  simpa using hfresh x hx

theorem append_new_names_nodup (dir : List BEntry) (n : BEntry)
    (hnod : (dir.map BEntry.name).Nodup)
    (hfresh : ∀ e ∈ dir, e.name ≠ n.name) :
    ((dir ++ [n]).map BEntry.name).Nodup := by
  rw [List.map_append]
  refine List.nodup_append.mpr ⟨hnod, List.nodup_singleton _, ?_⟩
  intro a ha hb
  obtain ⟨x, hx, hxa⟩ := List.mem_map.mp ha
  have hbn : a = n.name := by simpa using hb
  exact hfresh x hx (hxa.trans hbn)

theorem globMatches_append_new (dir : List BEntry) (stem : String) (n : BEntry)
    (hm : globBak stem n.name = true) :
    globMatches (dir ++ [n]) stem = globMatches dir stem ++ [n] := by
  unfold globMatches
  rw [List.filter_append]
  simp [hm]

theorem make_backup_eq_rotate (dir : List BEntry) (stem sfx ts : String)
    (m : Nat)
    (hfresh : ∀ e ∈ dir, e.name ≠ bakName stem ts sfx) :
    _make_backup dir stem sfx ts m
      = _rotate_backups (dir ++ [BEntry.mk (bakName stem ts sfx) m]) stem := by
  unfold _make_backup
  rw [setEntry_fresh]
  intro x hx
  exact hfresh x hx

theorem make_backup_count (dir : List BEntry) (stem sfx ts : String) (m : Nat)
    (hnod : (dir.map BEntry.name).Nodup)
    (hfresh : ∀ e ∈ dir, e.name ≠ bakName stem ts sfx) :
    (globMatches (_make_backup dir stem sfx ts m) stem).length
      = min MAX_BACKUPS ((globMatches dir stem).length + 1) := by
  rw [make_backup_eq_rotate dir stem sfx ts m hfresh]
  have hnod1 := append_new_names_nodup dir (BEntry.mk (bakName stem ts sfx) m)
    hnod hfresh
  have hperm := rotate_matches_perm (dir ++ [BEntry.mk (bakName stem ts sfx) m])
    stem hnod1
  rw [hperm.length_eq, List.length_take,
    (sortByMtimeDesc_perm _).length_eq,
    globMatches_append_new dir stem _ (globBak_bakName stem ts sfx),
    List.length_append]
  simp

theorem make_backup_new_mem (dir : List BEntry) (stem sfx ts : String) (m : Nat)
    (hnod : (dir.map BEntry.name).Nodup)
    (hfresh : ∀ e ∈ dir, e.name ≠ bakName stem ts sfx)
    (hmax : ∀ e ∈ dir, e.mtime < m) :
    BEntry.mk (bakName stem ts sfx) m ∈ _make_backup dir stem sfx ts m := by
  rw [make_backup_eq_rotate dir stem sfx ts m hfresh]
  have hnod1 := append_new_names_nodup dir (BEntry.mk (bakName stem ts sfx) m)
    hnod hfresh
  apply rotate_max_survives _ stem hnod1 (List.mem_append_right dir (by simp))
    (globBak_bakName stem ts sfx)
  intro f hf hne
  rcases List.mem_append.mp hf with hfd | hfn
  · exact hmax f hfd
  · exfalso
    exact hne (by simpa using hfn)

theorem make_backup_keeps_nonmatching (dir : List BEntry) (stem sfx ts : String)
    (m : Nat) (hnod : (dir.map BEntry.name).Nodup)
    (hfresh : ∀ e ∈ dir, e.name ≠ bakName stem ts sfx)
    {e : BEntry} (he : e ∈ dir) (hm : globBak stem e.name = false) :
    e ∈ _make_backup dir stem sfx ts m := by
  rw [make_backup_eq_rotate dir stem sfx ts m hfresh]
  exact rotate_mem_of_not_match _ stem
    (append_new_names_nodup dir _ hnod hfresh)
    (List.mem_append_left _ he) hm

theorem make_backup_subset (dir : List BEntry) (stem sfx ts : String) (m : Nat)
    (hfresh : ∀ e ∈ dir, e.name ≠ bakName stem ts sfx)
    {e : BEntry} (he : e ∈ _make_backup dir stem sfx ts m) :
    e ∈ dir ++ [BEntry.mk (bakName stem ts sfx) m] := by
  rw [make_backup_eq_rotate dir stem sfx ts m hfresh] at he
  exact rotate_subset _ stem he

theorem make_backup_names_nodup (dir : List BEntry) (stem sfx ts : String)
    (m : Nat) (hnod : (dir.map BEntry.name).Nodup)
    (hfresh : ∀ e ∈ dir, e.name ≠ bakName stem ts sfx) :
    ((_make_backup dir stem sfx ts m).map BEntry.name).Nodup := by
  rw [make_backup_eq_rotate dir stem sfx ts m hfresh, rotate_backups_eq]
  exact ((List.filter_sublist _).map BEntry.name).nodup
    (append_new_names_nodup dir _ hnod hfresh)

theorem runBackups_count (stem sfx : String) :
    ∀ (ps : List (String × Nat)) (dir : List BEntry),
      (dir.map BEntry.name).Nodup →
      (∀ p ∈ ps, ∀ e ∈ dir, e.name ≠ bakName stem p.1 sfx) →
      (∀ p ∈ ps, ∀ e ∈ dir, e.mtime < p.2) →
      List.Pairwise (fun p q : String × Nat => p.2 < q.2) ps →
      List.Pairwise (fun p q : String × Nat =>
        bakName stem p.1 sfx ≠ bakName stem q.1 sfx) ps →
      (globMatches dir stem).length ≤ MAX_BACKUPS →
      (globMatches (runBackups stem sfx ps dir) stem).length
        = min MAX_BACKUPS ((globMatches dir stem).length + ps.length) := by
  intro ps
  induction ps with
  | nil =>
    intro dir hnod _ _ _ _ hle
    simp only [runBackups, List.length_nil, Nat.add_zero]
    omega
  | cons p ps ih =>
    intro dir hnod hfresh hmt hpmt hpnm hle
    have hfreshp : ∀ e ∈ dir, e.name ≠ bakName stem p.1 sfx :=
      fun e he => hfresh p (List.mem_cons_self p ps) e he
    have hcount1 := make_backup_count dir stem sfx p.1 p.2 hnod hfreshp
    have hnod1 := make_backup_names_nodup dir stem sfx p.1 p.2 hnod hfreshp
    rcases List.pairwise_cons.mp hpmt with ⟨hpm1, hpmt2⟩
    rcases List.pairwise_cons.mp hpnm with ⟨hpn1, hpnm2⟩
    have hfresh1 : ∀ q ∈ ps, ∀ e ∈ _make_backup dir stem sfx p.1 p.2,
        e.name ≠ bakName stem q.1 sfx := by
      intro q hq e he
      rcases List.mem_append.mp
        (make_backup_subset dir stem sfx p.1 p.2 hfreshp he) with hed | hen
      · exact hfresh q (List.mem_cons_of_mem p hq) e hed
      · have : e = BEntry.mk (bakName stem p.1 sfx) p.2 := by simpa using hen
        subst this
        exact hpn1 q hq
    have hmt1 : ∀ q ∈ ps, ∀ e ∈ _make_backup dir stem sfx p.1 p.2,
        e.mtime < q.2 := by
      intro q hq e he
      rcases List.mem_append.mp
        (make_backup_subset dir stem sfx p.1 p.2 hfreshp he) with hed | hen
      · exact hmt q (List.mem_cons_of_mem p hq) e hed
      · have : e = BEntry.mk (bakName stem p.1 sfx) p.2 := by simpa using hen
        subst this
        exact hpm1 q hq
    have hle1 : (globMatches (_make_backup dir stem sfx p.1 p.2) stem).length
        ≤ MAX_BACKUPS := by
      rw [hcount1]
      omega
    have hrec := ih (_make_backup dir stem sfx p.1 p.2) hnod1 hfresh1 hmt1
      hpmt2 hpnm2 hle1
    simp only [runBackups] at hrec ⊢
    rw [hrec, hcount1, List.length_cons]
    omega

/-- Counterexample to C6 as stated: for a local file `x.bak` (stem `x`,
suffix `.bak`), the conflicted copy `x_conflicted_t1.bak` matches the
rotation glob `x_*.bak*`, so after four later ordinary backups the pruning
deletes it — conflicted copies are not always exempt. -/
theorem c6_conflicted_pruned_counterexample :
    (BEntry.mk (conflictedName ("x") ("t1") (".bak")) 1 ∈
      _make_conflicted_copy [] ("x") (".bak") ("t1") 1) ∧
    ¬ (BEntry.mk (conflictedName ("x") ("t1") (".bak")) 1 ∈
      runBackups ("x") (".bak")
        [(("t2"), 2), (("t3"), 3), (("t4"), 4), (("t5"), 5)]
        (_make_conflicted_copy [] ("x") (".bak") ("t1") 1)) := by
  constructor
  · decide
  · decide

/-- Claim C6 (amended): after a successful `_make_backup` call (directory
names distinct, the new backup name fresh and its source mtime above every
existing entry), the number of rotation-glob matches for the stem is
exactly `min MAX_BACKUPS (previous matches + 1)` — in particular at most
`MAX_BACKUPS = 3` — the new backup itself survives, every pruned match is
no newer than every surviving match, every entry not matching the glob
(in particular a conflicted copy whose name does not match — always the
case when the suffix does not contain `.bak`, e.g. `.db`) is untouched,
and a run of `k` successful backups from an empty backup directory leaves
exactly `min 3 k` ordinary backups.  The unrestricted exemption of
conflicted copies claimed for every suffix is refuted separately. -/
theorem c6_backup_rotation_amended
    (dir : List BEntry) (stem sfx ts : String) (m : Nat)
    (hnod : (dir.map BEntry.name).Nodup)
    (hfresh : ∀ e ∈ dir, e.name ≠ bakName stem ts sfx)
    (hmax : ∀ e ∈ dir, e.mtime < m) :
    (globMatches (_make_backup dir stem sfx ts m) stem).length
      = min MAX_BACKUPS ((globMatches dir stem).length + 1) ∧
    (globMatches (_make_backup dir stem sfx ts m) stem).length ≤ MAX_BACKUPS ∧
    BEntry.mk (bakName stem ts sfx) m ∈ _make_backup dir stem sfx ts m ∧
    (∀ e ∈ _make_backup dir stem sfx ts m, globBak stem e.name = true →
      ∀ f ∈ dir ++ [BEntry.mk (bakName stem ts sfx) m],
        globBak stem f.name = true →
        f ∉ _make_backup dir stem sfx ts m → f.mtime ≤ e.mtime) ∧
    (∀ e ∈ dir, globBak stem e.name = false →
      e ∈ _make_backup dir stem sfx ts m) ∧
    (∀ (ts2 sfx2 : String) (m2 : Nat),
      BEntry.mk (conflictedName stem ts2 sfx2) m2 ∈ dir →
      listHasSeg (String.data (".bak"))
        (String.data ("conflicted_" ++ ts2 ++ sfx2)) = false →
      BEntry.mk (conflictedName stem ts2 sfx2) m2
        ∈ _make_backup dir stem sfx ts m) ∧
    (∀ ps : List (String × Nat),
      List.Pairwise (fun p q : String × Nat => p.2 < q.2) ps →
      List.Pairwise (fun p q : String × Nat =>
        bakName stem p.1 sfx ≠ bakName stem q.1 sfx) ps →
      (globMatches (runBackups stem sfx ps []) stem).length
        = min MAX_BACKUPS ps.length) := by
  refine ⟨make_backup_count dir stem sfx ts m hnod hfresh, ?_, ?_, ?_, ?_, ?_, ?_⟩
  · rw [make_backup_count dir stem sfx ts m hnod hfresh]
    exact Nat.min_le_left _ _
  · exact make_backup_new_mem dir stem sfx ts m hnod hfresh hmax
  · intro e he hem f hf hfm hfout
    rw [make_backup_eq_rotate dir stem sfx ts m hfresh] at he hfout
    exact rotate_keeps_newest _ stem
      (append_new_names_nodup dir _ hnod hfresh) he hem hf hfm hfout
  · intro e he hm2
    exact make_backup_keeps_nonmatching dir stem sfx ts m hnod hfresh he hm2
  · intro ts2 sfx2 m2 hin hseg
    apply make_backup_keeps_nonmatching dir stem sfx ts m hnod hfresh hin
    rw [globBak_conflictedName]
    exact hseg
  · intro ps hp1 hp2
    have := runBackups_count stem sfx ps [] (by simp)
      (by intro p _ e he; cases he) (by intro p _ e he; cases he)
      hp1 hp2 (by simp [globMatches])
    have h0 : globMatches [] stem = [] := rfl
    rw [h0] at this
    simpa using this

/-- Witness for the amended C6: a backup directory holding one conflicted
copy of `x.db`; a fresh backup keeps the glob-match count at
`min 3 (0 + 1)` and the conflicted copy survives. -/
theorem c6_witness :
    (globMatches (_make_backup [BEntry.mk (conflictedName ("x") ("t0") (".db")) 0]
        ("x") (".db") ("t1") 1) ("x")).length
      = min MAX_BACKUPS
        ((globMatches [BEntry.mk (conflictedName ("x") ("t0") (".db")) 0]
          ("x")).length + 1) ∧
    BEntry.mk (conflictedName ("x") ("t0") (".db")) 0
      ∈ _make_backup [BEntry.mk (conflictedName ("x") ("t0") (".db")) 0]
        ("x") (".db") ("t1") 1 := by
  have h := c6_backup_rotation_amended
    [BEntry.mk (conflictedName ("x") ("t0") (".db")) 0]
    ("x") (".db") ("t1") 1 (by decide) (by decide) (by decide)
  exact ⟨h.1, h.2.2.2.2.2.1 ("t0") (".db") 0 (by decide) (by decide)⟩
